import Mathlib

/-!
Shallow embedding of the myshoes datastore layer and Recoverer helpers.

Sources embedded:
- the MySQL datastore backend (`MySQL.CreateTarget`, `MySQL.GetTarget`,
  `MySQL.GetTargetByScope`, `MySQL.DeleteTarget`);
- the in-memory datastore backend (`Memory.*` methods over the three maps
  `targets`, `jobs`, `runners`);
- the Recoverer helpers `getPendingRunByRepo` and `getRecentRepositories`.

Modelling conventions:
- Go `uuid.UUID` keys are modelled as `Nat`.
- Go `time.Time` instants and `time.Duration` values are modelled as `Int`
  nanoseconds, so `time.Since(t)` at instant `now` is `now - t`.
- Go maps are modelled as total functions `Nat → Option α` (lookup, keyed
  insert and delete translate pointwise).  Go's map *iteration* order is
  unspecified and deliberately randomised, so every operation that ranges
  over a map takes the iteration order as an explicit parameter, constrained
  in theorems only by what Go guarantees (each key visited exactly once).
- Fallible Go methods returning `error` are modelled with `Except DSErr`;
  methods that may mutate the receiver return the updated state as well.
-/

namespace Myshoes

/-- Model of Go `sql.NullString`: a string plus a validity flag. -/
structure NullString where
  valid : Bool
  str : String
deriving DecidableEq, Repr

/-- Errors surfaced by the datastore.  `notFound` models the distinguished
`datastore.ErrNotFound`; `other` models any `fmt.Errorf` error. -/
inductive DSErr where
  | notFound
  | other (msg : String)
deriving DecidableEq, Repr

/-- Modelled from the spec and the fields the embedded code reads/writes
(the `datastore.Target` struct declaration itself is not under src/):
identifier, scope, optional CI-domain, credentials, resource class, runner
user, status with human description, registration token with expiry,
provider URL, timestamps. -/
structure Target where
  uuid : Nat
  scope : String
  gheDomain : String
  githubPersonalToken : String
  resourceType : String
  runnerUser : NullString
  status : String
  statusDescription : NullString
  githubToken : String
  tokenExpiredAt : Int
  providerURL : NullString
  createdAt : Int
  updatedAt : Int
deriving DecidableEq, Repr

/-- Target status literals used by the spec: `active`, `err`, `pending`,
`deleted`. -/
def TargetStatusDeleted : String := "deleted"

/-- Modelled from the spec (the `datastore.Job` struct declaration is not
under src/): stable id, owning target id, CI-domain, repository full-name,
raw webhook payload, optional check-run (workflow-run) id, timestamp. -/
structure Job where
  uuid : Nat
  targetID : Nat
  gheDomain : String
  repository : String
  checkEventJSON : String
  runID : Option Nat
  createdAt : Int
deriving DecidableEq, Repr

/-- Modelled from the spec and the fields the embedded code reads (the
`datastore.Runner` struct declaration is not under src/): stable id, owning
target id, repository URL, status, created-at, optional deleted-at. -/
structure Runner where
  uuid : Nat
  targetID : Nat
  repositoryURL : String
  status : String
  createdAt : Int
  deletedAt : Option Int
deriving DecidableEq, Repr

/-- State of the in-memory datastore `Memory`: the three Go maps keyed by
UUID, modelled as total functions into `Option`. -/
structure MemoryDS where
  targets : Nat → Option Target
  jobs : Nat → Option Job
  runners : Nat → Option Runner

/-- The in-memory datastore with no rows, as built by `memory.New`. -/
def MemoryDS.empty : MemoryDS :=
  { targets := fun _ => none, jobs := fun _ => none, runners := fun _ => none }

/-! ## In-memory backend operations (package `memory`) -/

/-- `Memory.CreateTarget`: `m.targets[target.UUID] = target`; always returns
nil. -/
def memoryCreateTarget (target : Target) (s : MemoryDS) :
    Except DSErr Unit × MemoryDS :=
  (.ok (), { s with targets := fun k => if k = target.uuid then some target else s.targets k })

/-- `Memory.GetTarget`: map lookup; `ErrNotFound` when the key is absent. -/
def memoryGetTarget (id : Nat) (s : MemoryDS) :
    Except DSErr Target × MemoryDS :=
  match s.targets id with
  | some t => (.ok t, s)
  | none => (.error .notFound, s)

/-- `Memory.GetTargetByScope`: ranges over the `targets` map and returns the
first target whose `Scope` equals the requested scope, else `ErrNotFound`.
The method takes no CI-domain argument.  `order` is the map iteration
order (Go leaves it unspecified). -/
def memoryGetTargetByScope (order : List Nat) (scope : String) (s : MemoryDS) :
    Except DSErr Target × MemoryDS :=
  match (order.filterMap s.targets).find? (fun t => t.scope == scope) with
  | some t => (.ok t, s)
  | none => (.error .notFound, s)

/-- `Memory.DeleteTarget`: `delete(m.targets, id)`; always returns nil. -/
def memoryDeleteTarget (id : Nat) (s : MemoryDS) :
    Except DSErr Unit × MemoryDS :=
  (.ok (), { s with targets := fun k => if k = id then none else s.targets k })

/-- `Memory.UpdateTargetStatus`: on a present key, set `Status`, set
`StatusDescription.Valid` to whether the description is non-empty and
`StatusDescription.String` to the description, and store back; on an absent
key return `fmt.Errorf("not found")`. -/
def memoryUpdateTargetStatus (targetID : Nat) (newStatus : String)
    (description : String) (s : MemoryDS) : Except DSErr Unit × MemoryDS :=
  match s.targets targetID with
  | none => (.error (.other "not found"), s)
  | some t =>
    let t := { t with
      status := newStatus,
      statusDescription := { valid := description != "", str := description } }
    (.ok (), { s with targets := fun k => if k = targetID then some t else s.targets k })

/-- `Memory.EnqueueJob`: `m.jobs[job.UUID] = job`; always returns nil. -/
def memoryEnqueueJob (job : Job) (s : MemoryDS) :
    Except DSErr Unit × MemoryDS :=
  (.ok (), { s with jobs := fun k => if k = job.uuid then some job else s.jobs k })

/-- `Memory.DeleteJob`: `delete(m.jobs, id)`; always returns nil. -/
def memoryDeleteJob (id : Nat) (s : MemoryDS) :
    Except DSErr Unit × MemoryDS :=
  (.ok (), { s with jobs := fun k => if k = id then none else s.jobs k })

/-- `Memory.CreateRunner`: `m.runners[runner.UUID] = runner`. -/
def memoryCreateRunner (runner : Runner) (s : MemoryDS) :
    Except DSErr Unit × MemoryDS :=
  (.ok (), { s with runners := fun k => if k = runner.uuid then some runner else s.runners k })

/-- `Memory.GetRunner`: map lookup; `ErrNotFound` when the key is absent. -/
def memoryGetRunner (id : Nat) (s : MemoryDS) :
    Except DSErr Runner × MemoryDS :=
  match s.runners id with
  | some r => (.ok r, s)
  | none => (.error .notFound, s)

/-- `Memory.DeleteRunner`: the body is exactly `delete(m.runners, id)`; the
`deletedAt` and `reason` arguments are ignored and nil is returned. -/
def memoryDeleteRunner (id : Nat) (deletedAt : Int) (reason : String)
    (s : MemoryDS) : Except DSErr Unit × MemoryDS :=
  (.ok (), { s with runners := fun k => if k = id then none else s.runners k })

/-- Modelled from the spec: the lock-state constant `datastore.IsNotLocked`
(its declaration is not under src/; the spec's lock states are
`locked(holder)` / `unlocked`). -/
def IsNotLocked : String := "is not locked"

/-- `Memory.GetLock`: the body is `return nil`. -/
def memoryGetLock (s : MemoryDS) : Except DSErr Unit × MemoryDS :=
  (.ok (), s)

/-- `Memory.IsLocked`: the body is `return datastore.IsNotLocked, nil`. -/
def memoryIsLocked (s : MemoryDS) : Except DSErr String × MemoryDS :=
  (.ok IsNotLocked, s)

/-! ## MySQL backend operations (package `mysql`)

The table is modelled as the list of its rows; a `SELECT ... WHERE` with
`GetContext` returns the first matching row of that list, and theorems
quantify over all row orders (SQL row order is unspecified). -/

/-- `MySQL.GetTarget`: `SELECT ... WHERE uuid = ?`; `sql.ErrNoRows` is mapped
to `datastore.ErrNotFound`. -/
def mysqlGetTarget (rows : List Target) (id : Nat) : Except DSErr Target :=
  match rows.find? (fun t => t.uuid == id) with
  | some t => .ok t
  | none => .error .notFound

/-- `MySQL.GetTargetByScope`: `SELECT ... WHERE scope = "<scope>"`, with
`AND ghe_domain = "<gheDomain>"` appended exactly when `gheDomain` is
non-empty; `sql.ErrNoRows` is mapped to `datastore.ErrNotFound`. -/
def mysqlGetTargetByScope (rows : List Target) (gheDomain scope : String) :
    Except DSErr Target :=
  match rows.find? (fun t =>
      t.scope == scope && (gheDomain == "" || t.gheDomain == gheDomain)) with
  | some t => .ok t
  | none => .error .notFound

/-- Modelled from the spec for the part not under src/: `MySQL.CreateTarget`
runs a plain `INSERT`, and the spec's invariant "(scope, CI-domain) is unique
among non-deleted targets" is enforced "via a uniqueness constraint", so the
insert fails (and leaves the table unchanged) when a non-deleted row with the
same (scope, CI-domain) exists, and appends the row otherwise. -/
def mysqlCreateTarget (rows : List Target) (target : Target) :
    Except DSErr Unit × List Target :=
  if rows.any (fun t =>
      t.status != TargetStatusDeleted && target.status != TargetStatusDeleted
        && t.scope == target.scope && t.gheDomain == target.gheDomain) then
    (.error (.other "duplicate entry"), rows)
  else
    (.ok (), rows ++ [target])

/-! ## Recoverer helpers (package `datastore`) -/

/-- One nanosecond-count per minute (Go `time.Minute`). -/
def minuteNs : Int := 60 * 1000000000

/-- One nanosecond-count per hour (Go `time.Hour`). -/
def hourNs : Int := 60 * minuteNs

/-- Modelled from the fields `getPendingRunByRepo` reads of the external
`github.WorkflowRun`: id, status, creation time. -/
structure WorkflowRun where
  id : Nat
  status : String
  createdAt : Int
deriving DecidableEq, Repr

/-- `getPendingRunByRepo`, after the CI-service call: keep each run whose
status is `"queued"` or `"pending"` and for which
`time.Since(r.CreatedAt).Minutes() >= 30`.  `runs` is the list returned by
`gh.ListWorkflowRunsNewestOneHundred` and `now` the evaluation instant. -/
def getPendingRunByRepo (now : Int) (runs : List WorkflowRun) :
    List WorkflowRun :=
  runs.filter (fun r =>
    (r.status == "queued" || r.status == "pending")
      && (30 * minuteNs ≤ now - r.createdAt))

/-- Insert a runner into a list after every element with an equal-or-newer
creation time (helper for the stable descending sort below). -/
def insertByCreatedAtDesc (r : Runner) : List Runner → List Runner
  | [] => [r]
  | x :: xs =>
    if x.createdAt < r.createdAt then r :: x :: xs
    else x :: insertByCreatedAtDesc r xs

/-- `sort.SliceStable(recentRunners, less i j = CreatedAt[i].After(CreatedAt[j]))`:
stable sort, newest creation time first. -/
def sortByCreatedAtDesc (rs : List Runner) : List Runner :=
  rs.foldl (fun acc r => insertByCreatedAtDesc r acc) []

/-- Modelled from the spec: `Datastore.ListRunnersLogBySince` (its
implementations are not under src/) — "list created after a cutoff (recent
activity window for reconciliation)". -/
def listRunnersLogBySince (since : Int) (runners : List Runner) :
    List Runner :=
  runners.filter (fun r => since < r.createdAt)

/-- `getRecentRepositories`: take the runners created in the last 24 h, sort
them newest first, insert their repository URLs into a Go map used as a set
(first occurrence wins), then collect the map's keys by ranging over it.
`runners` stands for the datastore's runner log (itself map-ranged, so
quantifying over its order covers all executions) and `rangeOrder` is Go's
unspecified map-range enumeration of the key set. -/
def getRecentRepositories (now : Int) (runners : List Runner)
    (rangeOrder : List String → List String) : List String :=
  let recent := now - 24 * hourNs
  let recentRunners := listRunnersLogBySince recent runners
  let sorted := sortByCreatedAtDesc recentRunners
  rangeOrder ((sorted.map Runner.repositoryURL).dedup)

/-! ## Derived state predicates -/

/-- The spec's Target invariant: "(scope, CI-domain) is unique among
non-deleted targets", read over the in-memory state. -/
def targetUniq (s : MemoryDS) : Prop :=
  ∀ k1 k2 t1 t2, s.targets k1 = some t1 → s.targets k2 = some t2 →
    t1.status ≠ TargetStatusDeleted → t2.status ≠ TargetStatusDeleted →
    t1.scope = t2.scope → t1.gheDomain = t2.gheDomain → k1 = k2

/-- The same Target invariant read over a MySQL table given as its row
list: no two distinct non-deleted rows share (scope, CI-domain). -/
def targetUniqRows (rows : List Target) : Prop :=
  rows.Pairwise (fun t1 t2 =>
    t1.status ≠ TargetStatusDeleted → t2.status ≠ TargetStatusDeleted →
      ¬(t1.scope = t2.scope ∧ t1.gheDomain = t2.gheDomain))

/-! ## Concrete sample data used by closed exhibits and witnesses -/

/-- An active target on the default CI host. -/
def tA : Target :=
  { uuid := 1, scope := "acme/widget", gheDomain := "",
    githubPersonalToken := "tok", resourceType := "nano",
    runnerUser := ⟨false, ""⟩, status := "active",
    statusDescription := ⟨false, ""⟩, githubToken := "",
    tokenExpiredAt := 0, providerURL := ⟨false, ""⟩,
    createdAt := 0, updatedAt := 0 }

/-- A second active target with the same scope and CI-domain as `tA` but a
fresh UUID. -/
def tDup : Target := { tA with uuid := 2 }

/-- An active target bound to a non-default CI-domain. -/
def tD1 : Target := { tA with gheDomain := "ghe1.example.com" }

/-- In-memory state holding exactly the target `tA` under key 1. -/
def targetOnlyState : MemoryDS :=
  { MemoryDS.empty with targets := fun k => if k = 1 then some tA else none }

/-- In-memory state holding exactly the target `tD1` under key 1. -/
def memDomState : MemoryDS :=
  { MemoryDS.empty with targets := fun k => if k = 1 then some tD1 else none }

/-- A completed runner. -/
def sampleRunner : Runner :=
  { uuid := 1, targetID := 2,
    repositoryURL := "https://github.com/acme/widget",
    status := "completed", createdAt := 10, deletedAt := none }

/-- In-memory state holding exactly the runner `sampleRunner` under key 1. -/
def runnerOnlyState : MemoryDS :=
  { MemoryDS.empty with runners := fun k => if k = 1 then some sampleRunner else none }

/-- A job carrying workflow-run id 9 for target 7. -/
def jA : Job :=
  { uuid := 1, targetID := 7, gheDomain := "", repository := "acme/widget",
    checkEventJSON := "payload", runID := some 9, createdAt := 0 }

/-- A second job for the same target and the same workflow run as `jA`,
with a fresh UUID (as a second Recoverer pass would enqueue). -/
def jB : Job := { jA with uuid := 2 }

/-- A runner created 99 h after the epoch in repository `acme/new`. -/
def runnerNew : Runner :=
  { uuid := 1, targetID := 1,
    repositoryURL := "https://github.com/acme/new",
    status := "completed", createdAt := 99 * hourNs, deletedAt := none }

/-- A runner created 98 h after the epoch in repository `acme/old`,
one hour older than `runnerNew`. -/
def runnerOld : Runner :=
  { uuid := 2, targetID := 1,
    repositoryURL := "https://github.com/acme/old",
    status := "completed", createdAt := 98 * hourNs, deletedAt := none }

/-! ## Helper lemmas -/

/-- Inserting a runner is a permutation of consing it. -/
theorem insertByCreatedAtDesc_perm (r : Runner) (xs : List Runner) :
    List.Perm (insertByCreatedAtDesc r xs) (r :: xs) := by
  induction xs with
  | nil => exact List.Perm.refl _
  | cons x xs ih =>
    rw [insertByCreatedAtDesc]
    by_cases h : x.createdAt < r.createdAt
    · simp [h]
    · simp only [h, if_false]
      exact (ih.cons x).trans (List.Perm.swap r x xs)

/-- The insertion fold underlying the stable sort permutes its input. -/
theorem sortFold_perm (rs acc : List Runner) :
    List.Perm (rs.foldl (fun a r => insertByCreatedAtDesc r a) acc) (acc ++ rs) := by
  induction rs generalizing acc with
  | nil => simp
  | cons r rs ih =>
    simp only [List.foldl_cons]
    refine ((ih _).trans (((insertByCreatedAtDesc_perm r acc).append_right rs).trans ?_))
    exact List.perm_middle.symm

/-- The stable descending sort permutes its input. -/
theorem sortByCreatedAtDesc_perm (rs : List Runner) :
    List.Perm (sortByCreatedAtDesc rs) rs := by
  simpa using sortFold_perm rs []

/-! ## Claims -/

/-- Claim C1 (code-bug exhibit): on a store holding runner 1, `DeleteRunner`
with timestamp 50 and reason `"deleted"` reports success, yet the runner is
physically removed — `GetRunner` then returns `ErrNotFound` and the runners
map is empty, so no row with status deleted, the reason, or the timestamp is
retained for audit. -/
theorem deleteRunner_removes_row :
    (memoryDeleteRunner 1 50 "deleted" runnerOnlyState).1 = .ok ()
    ∧ (memoryGetRunner 1 (memoryDeleteRunner 1 50 "deleted" runnerOnlyState).2).1
        = .error .notFound
    ∧ ∀ k, ((memoryDeleteRunner 1 50 "deleted" runnerOnlyState).2).runners k = none := by
  refine ⟨rfl, rfl, fun k => ?_⟩
  by_cases h : k = 1 <;>
    simp [memoryDeleteRunner, runnerOnlyState, MemoryDS.empty, h]

/-- Claim C2: the Recoverer's pending-run sweep selects a workflow run if and
only if it is listed by the CI service, its status is `"queued"` or
`"pending"`, and at least 30 minutes have elapsed since its creation. -/
theorem getPendingRunByRepo_mem_iff (now : Int) (runs : List WorkflowRun)
    (r : WorkflowRun) :
    r ∈ getPendingRunByRepo now runs ↔
      r ∈ runs ∧ (r.status = "queued" ∨ r.status = "pending")
        ∧ 30 * minuteNs ≤ now - r.createdAt := by
  simp [getPendingRunByRepo, List.mem_filter, Bool.and_eq_true,
    Bool.or_eq_true, beq_iff_eq, decide_eq_true_eq, and_assoc]

/-- Claim C6: soft-deleting a runner is idempotent — a second `DeleteRunner`
with the same arguments returns the same success result and the same final
state as the first call. -/
theorem memoryDeleteRunner_idem (id : Nat) (deletedAt : Int) (reason : String)
    (s : MemoryDS) :
    memoryDeleteRunner id deletedAt reason
        (memoryDeleteRunner id deletedAt reason s).2
      = memoryDeleteRunner id deletedAt reason s
    ∧ (memoryDeleteRunner id deletedAt reason
        (memoryDeleteRunner id deletedAt reason s).2).1 = .ok () := by
  refine ⟨?_, rfl⟩
  simp only [memoryDeleteRunner, Prod.mk.injEq, true_and]
  congr 1
  funext k
  by_cases h : k = id <;> simp [h]

/-- Claim C7: in the in-memory datastore the advisory lock is a no-op —
`GetLock` always succeeds, `IsLocked` always reports the unlocked state, and
neither call changes the state. -/
theorem memoryLock_noop (s : MemoryDS) :
    memoryGetLock s = (.ok (), s) ∧ memoryIsLocked s = (.ok IsNotLocked, s) :=
  ⟨rfl, rfl⟩

/-- Claim C9: lookups for an id (or scope) not present in the datastore
return the distinguished `ErrNotFound` and leave the state unchanged:
`Memory.GetTarget`, `MySQL.GetTarget`, `Memory.GetTargetByScope` and
`Memory.GetRunner`. -/
theorem lookups_absent_notFound (s : MemoryDS) (rows : List Target)
    (id rid : Nat) (order : List Nat) (scope : String)
    (h1 : s.targets id = none)
    (h2 : ∀ t ∈ rows, t.uuid ≠ id)
    (h3 : ∀ k t, s.targets k = some t → t.scope ≠ scope)
    (h4 : s.runners rid = none) :
    memoryGetTarget id s = (.error .notFound, s)
    ∧ mysqlGetTarget rows id = .error .notFound
    ∧ memoryGetTargetByScope order scope s = (.error .notFound, s)
    ∧ memoryGetRunner rid s = (.error .notFound, s) := by
  refine ⟨?_, ?_, ?_, ?_⟩
  · rw [memoryGetTarget, h1]
  · rw [mysqlGetTarget, List.find?_eq_none.mpr]
    intro t ht
    simpa using h2 t ht
  · rw [memoryGetTargetByScope, List.find?_eq_none.mpr]
    intro t ht
    obtain ⟨k, _, hk⟩ := List.mem_filterMap.mp ht
    simpa using h3 k t hk
  · rw [memoryGetRunner, h4]

/-- Witness for claim C9: the absent lookups at key 2, scope `"nope"` and
runner key 5 on a store holding only runner 1 and the single-row table
`[tA]`. -/
theorem lookups_absent_notFound_w :
    memoryGetTarget 2 runnerOnlyState = (.error .notFound, runnerOnlyState)
    ∧ mysqlGetTarget [tA] 2 = .error .notFound
    ∧ memoryGetTargetByScope [1, 2] "nope" runnerOnlyState
        = (.error .notFound, runnerOnlyState)
    ∧ memoryGetRunner 5 runnerOnlyState = (.error .notFound, runnerOnlyState) :=
  lookups_absent_notFound runnerOnlyState [tA] 2 5 [1, 2] "nope"
    rfl (by decide)
    (fun k t h => by simp [runnerOnlyState, MemoryDS.empty] at h)
    rfl

/-- Claim C10: `UpdateTargetStatus` on a present target id succeeds and
replaces exactly that target's entry with a copy whose status is the new
status and whose status description carries the given string with validity
flag set exactly when the string is non-empty; jobs, runners and every other
target entry are carried over unchanged.  On an absent id it returns the
`"not found"` error and the whole state is unchanged. -/
theorem updateTargetStatus_spec (targetID : Nat) (newStatus description : String)
    (s : MemoryDS) :
    (∀ t, s.targets targetID = some t →
      memoryUpdateTargetStatus targetID newStatus description s =
        (.ok (), { s with targets := fun k => if k = targetID then some { t with status := newStatus, statusDescription := ⟨description != "", description⟩ } else s.targets k }))
    ∧ (s.targets targetID = none →
      memoryUpdateTargetStatus targetID newStatus description s
        = (.error (.other "not found"), s)) := by
  constructor
  · intro t h
    rw [memoryUpdateTargetStatus, h]
  · intro h
    rw [memoryUpdateTargetStatus, h]

/-- Witness for claim C10: updating target 1 to status `"err"` with
description `"boom"` on the single-target store yields exactly the state
whose sole change is target 1's status and description. -/
theorem updateTargetStatus_spec_w :
    memoryUpdateTargetStatus 1 "err" "boom" targetOnlyState =
      (.ok (), { targetOnlyState with targets := fun k => if k = 1 then some { tA with status := "err", statusDescription := ⟨("boom" : String) != "", "boom"⟩ } else targetOnlyState.targets k }) :=
  (updateTargetStatus_spec 1 "err" "boom" targetOnlyState).1 tA rfl

/-- Claim C3 (counterexample): `EnqueueJob` is keyed on the job UUID only, so
enqueuing a second job that targets the same target and the same workflow run
as `jA` but carries a fresh UUID changes the pending-job map — a duplicate
job is created. -/
theorem enqueueJob_dup_counterexample :
    ((memoryEnqueueJob jB (memoryEnqueueJob jA MemoryDS.empty).2).2).jobs ≠
      ((memoryEnqueueJob jA MemoryDS.empty).2).jobs
    ∧ jA.targetID = jB.targetID ∧ jA.runID = jB.runID ∧ jA.uuid ≠ jB.uuid := by
  refine ⟨fun h => ?_, rfl, rfl, by decide⟩
  have h2 := congrFun h 2
  simp [memoryEnqueueJob, MemoryDS.empty, jA, jB] at h2

/-- Claim C3 (amended): `EnqueueJob` is idempotent on the job UUID — enqueuing
the identical job a second time returns the same success result and leaves
the state exactly as after the first enqueue. -/
theorem enqueueJob_idem_on_uuid (job : Job) (s : MemoryDS) :
    memoryEnqueueJob job (memoryEnqueueJob job s).2 = memoryEnqueueJob job s := by
  simp only [memoryEnqueueJob, Prod.mk.injEq, true_and]
  congr 1
  funext k
  by_cases h : k = job.uuid <;> simp [h]

/-- Claim C4 (counterexample): on a store whose sole target `tD1` lives on
CI-domain `"ghe1.example.com"`, the in-memory `GetTargetByScope` (which takes
no CI-domain argument) returns that target for its scope even though the
requested CI-domain `"ghe2.example.com"` is non-empty and does not match,
while the domain-aware MySQL lookup on the same store contents returns
not-found. -/
theorem getTargetByScope_memory_ignores_domain :
    (memoryGetTargetByScope [1] "acme/widget" memDomState).1 = .ok tD1
    ∧ tD1.gheDomain ≠ "ghe2.example.com"
    ∧ ("ghe2.example.com" : String) ≠ ""
    ∧ mysqlGetTargetByScope [tD1] "ghe2.example.com" "acme/widget"
        = .error .notFound := by
  exact ⟨rfl, by decide, by decide, rfl⟩

/-- Claim C4 (amended): the MySQL `GetTargetByScope` returns a target only if
it matches the requested scope and, when a CI-domain is given, the requested
CI-domain, and returns not-found when no row matches both; the in-memory
variant takes no CI-domain and guarantees only that the returned target
matches the scope, never mutating the state. -/
theorem getTargetByScope_spec (rows : List Target) (gheDomain scope : String)
    (order : List Nat) (s : MemoryDS) :
    (∀ t, mysqlGetTargetByScope rows gheDomain scope = .ok t →
        t.scope = scope ∧ (gheDomain ≠ "" → t.gheDomain = gheDomain))
    ∧ ((∀ t ∈ rows, ¬(t.scope = scope ∧ (gheDomain = "" ∨ t.gheDomain = gheDomain))) →
        mysqlGetTargetByScope rows gheDomain scope = .error .notFound)
    ∧ (∀ t, (memoryGetTargetByScope order scope s).1 = .ok t → t.scope = scope)
    ∧ (memoryGetTargetByScope order scope s).2 = s := by
  refine ⟨?_, ?_, ?_, ?_⟩
  · intro t h
    rw [mysqlGetTargetByScope] at h
    rcases hf : rows.find? (fun t =>
        t.scope == scope && (gheDomain == "" || t.gheDomain == gheDomain)) with _ | t0
    · rw [hf] at h
      exact absurd h (by simp)
    · rw [hf] at h
      have ht0 := List.find?_some hf
      simp only [Bool.and_eq_true, Bool.or_eq_true, beq_iff_eq] at ht0
      cases h
      refine ⟨ht0.1, fun hne => ?_⟩
      rcases ht0.2 with h1 | h1
      · exact absurd h1 hne
      · exact h1
  · intro hno
    rw [mysqlGetTargetByScope, List.find?_eq_none.mpr]
    intro t ht
    have := hno t ht
    simp only [Bool.and_eq_true, Bool.or_eq_true, beq_iff_eq]
    tauto
  · intro t h
    rw [memoryGetTargetByScope] at h
    rcases hf : (order.filterMap s.targets).find? (fun t => t.scope == scope) with _ | t0
    · rw [hf] at h
      exact absurd h (by simp)
    · rw [hf] at h
      have ht0 := List.find?_some hf
      cases h
      simpa using ht0
  · rw [memoryGetTargetByScope]
    split <;> rfl

/-- Witness for claim C4: instantiating the amended statement on the
one-row table `[tD1]` and the one-target store, with requested scope
`"acme/widget"` and CI-domain `"ghe1.example.com"`. -/
theorem getTargetByScope_spec_w :
    (tD1.scope = "acme/widget"
      ∧ (("ghe1.example.com" : String) ≠ "" → tD1.gheDomain = "ghe1.example.com"))
    ∧ mysqlGetTargetByScope [tD1] "zzz.example.com" "acme/widget" = .error .notFound
    ∧ tD1.scope = "acme/widget" :=
  ⟨(getTargetByScope_spec [tD1] "ghe1.example.com" "acme/widget" [1] memDomState).1
      tD1 rfl,
   (getTargetByScope_spec [tD1] "zzz.example.com" "acme/widget" [1] memDomState).2.1
      (by decide),
   (getTargetByScope_spec [tD1] "ghe1.example.com" "acme/widget" [1] memDomState).2.2.1
      tD1 rfl⟩

/-- Claim C8 (counterexample): on a store holding the non-deleted target `tA`
and satisfying the uniqueness invariant, the in-memory `CreateTarget` accepts
`tDup` — a non-deleted target with the same scope and CI-domain but a fresh
UUID — reporting success and leaving a state in which two non-deleted targets
share the (scope, CI-domain) pair. -/
theorem createTarget_dup_counterexample :
    (memoryCreateTarget tDup targetOnlyState).1 = .ok ()
    ∧ targetUniq targetOnlyState
    ∧ ¬ targetUniq (memoryCreateTarget tDup targetOnlyState).2 := by
  refine ⟨rfl, ?_, fun h => ?_⟩
  · intro k1 k2 t1 t2 h1 h2 _ _ _ _
    simp only [targetOnlyState, MemoryDS.empty] at h1 h2
    split at h1
    · split at h2
      · omega
      · exact absurd h2 (by simp)
    · exact absurd h1 (by simp)
  · have h12 := h 1 2 tA tDup rfl rfl (by decide) (by decide) rfl rfl
    exact absurd h12 (by decide)

/-- Claim C8 (amended): the in-memory `CreateTarget` performs an unchecked
keyed insert, so it preserves the (scope, CI-domain) uniqueness invariant
exactly when no retained non-deleted target under a different key already
carries the inserted target's (scope, CI-domain) pair; a duplicating insert
succeeds anyway and breaks the invariant.  The MySQL backend, modelled with
the spec's uniqueness constraint, preserves the invariant unconditionally. -/
theorem createTarget_preserves_uniq (target : Target) (s : MemoryDS)
    (hinv : targetUniq s)
    (hfresh : ∀ k t, s.targets k = some t → k ≠ target.uuid →
        t.status ≠ TargetStatusDeleted → target.status ≠ TargetStatusDeleted →
        ¬(t.scope = target.scope ∧ t.gheDomain = target.gheDomain)) :
    (memoryCreateTarget target s).1 = .ok ()
    ∧ targetUniq (memoryCreateTarget target s).2
    ∧ ∀ rows, targetUniqRows rows →
        targetUniqRows (mysqlCreateTarget rows target).2 := by
  refine ⟨rfl, ?_, ?_⟩
  case refine_2 =>
    intro rows hrows
    rw [mysqlCreateTarget]
    by_cases hdup : rows.any (fun t =>
        t.status != TargetStatusDeleted && target.status != TargetStatusDeleted
          && t.scope == target.scope && t.gheDomain == target.gheDomain)
    · rw [if_pos hdup]
      exact hrows
    · rw [if_neg hdup]
      rw [targetUniqRows, List.pairwise_append]
      refine ⟨hrows, List.pairwise_singleton _ _, ?_⟩
      intro a ha b hb nda ndb hcontra
      simp only [List.mem_singleton] at hb
      subst hb
      simp only [List.any_eq_true, not_exists, not_and] at hdup
      have := hdup a ha
      simp only [Bool.and_eq_true, bne_iff_ne, ne_eq, beq_iff_eq] at this
      exact this ⟨⟨⟨nda, ndb⟩, hcontra.1⟩, hcontra.2⟩
  intro k1 k2 t1 t2 h1 h2 nd1 nd2 hs hd
  simp only [memoryCreateTarget] at h1 h2
  by_cases c1 : k1 = target.uuid <;> by_cases c2 : k2 = target.uuid
  · rw [c1, c2]
  · rw [if_pos c1] at h1
    rw [if_neg c2] at h2
    cases h1
    exact absurd ⟨hs.symm, hd.symm⟩ (hfresh k2 t2 h2 c2 nd2 nd1)
  · rw [if_neg c1] at h1
    rw [if_pos c2] at h2
    cases h2
    exact absurd ⟨hs, hd⟩ (hfresh k1 t1 h1 c1 nd1 nd2)
  · rw [if_neg c1] at h1
    rw [if_neg c2] at h2
    exact hinv k1 k2 t1 t2 h1 h2 nd1 nd2 hs hd

/-- Witness for claim C8: inserting `tA` into the empty store (and into the
empty table) preserves the uniqueness invariant. -/
theorem createTarget_preserves_uniq_w :
    (memoryCreateTarget tA MemoryDS.empty).1 = .ok ()
    ∧ targetUniq (memoryCreateTarget tA MemoryDS.empty).2
    ∧ targetUniqRows (mysqlCreateTarget [] tA).2 :=
  have h := createTarget_preserves_uniq tA MemoryDS.empty
    (fun k1 k2 t1 t2 h1 _ _ _ _ _ => by simp [MemoryDS.empty] at h1)
    (fun k t h _ _ _ => by simp [MemoryDS.empty] at h)
  ⟨h.1, h.2.1, h.2.2 [] List.Pairwise.nil⟩

/-- Supporting lemma for claim C5: under any map-range enumeration that
yields each key of the repository set exactly once (all Go guarantees), the
recent-repository list contains no duplicates, and a URL appears in it
exactly when some runner created within the last 24 hours carries it. -/
theorem getRecentRepositories_dedup (now : Int) (runners : List Runner)
    (rangeOrder : List String → List String)
    (hperm : ∀ l, List.Perm (rangeOrder l) l) :
    (getRecentRepositories now runners rangeOrder).Nodup
    ∧ ∀ u, u ∈ getRecentRepositories now runners rangeOrder ↔
        ∃ r ∈ runners, now - 24 * hourNs < r.createdAt ∧ r.repositoryURL = u := by
  constructor
  · exact ((hperm _).nodup_iff).mpr (List.nodup_dedup _)
  · intro u
    rw [getRecentRepositories, (hperm _).mem_iff, List.mem_dedup, List.mem_map]
    constructor
    · rintro ⟨r, hr, hu⟩
      have hr2 : r ∈ listRunnersLogBySince (now - 24 * hourNs) runners :=
        (sortByCreatedAtDesc_perm _).subset hr
      rw [listRunnersLogBySince, List.mem_filter] at hr2
      exact ⟨r, hr2.1, by simpa using hr2.2, hu⟩
    · rintro ⟨r, hr, hrecent, hu⟩
      refine ⟨r, (sortByCreatedAtDesc_perm _).symm.subset ?_, hu⟩
      rw [listRunnersLogBySince, List.mem_filter]
      exact ⟨hr, by simpa using hrecent⟩

/-- Claim C5 (code-bug exhibit): the repository enumeration ranges over a Go
map, whose enumeration order is unspecified, so the reversing enumeration —
a legal one, being a permutation — makes `getRecentRepositories` list the
repository of the older runner `runnerOld` before that of the strictly newer
`runnerNew`, although the preceding `sort.SliceStable` shows newest-first
order is intended. -/
theorem getRecentRepositories_order_bug :
    getRecentRepositories (100 * hourNs) [runnerOld, runnerNew] List.reverse
      = ["https://github.com/acme/old", "https://github.com/acme/new"]
    ∧ (∀ l : List String, List.Perm (List.reverse l) l)
    ∧ runnerOld.createdAt < runnerNew.createdAt
    ∧ runnerNew.repositoryURL = "https://github.com/acme/new" := by
  refine ⟨by decide, fun l => List.reverse_perm l, by decide, rfl⟩

end Myshoes
